import Mathlib

/-!
Verification of the SQL-query safety validator of the access-manager
repository: the `SafeQueryValidator` (AST path and regex fallback path) of
`sql_query_validator.py`, and the `AnalyticsService` allow-list guard of
`src/services/analytics_service.py`.

Queries are modelled as `List Char` (Python `str`; the repository's queries
are ASCII, and the embedding's case conversion and whitespace predicates are
the ASCII fragments of Python's, which agree on such inputs).  The regular
expressions of the source are translated into executable scanning functions
whose semantics match the regexes on the source's patterns; each translation
is documented at its definition.
-/

namespace SqlGuard

instance {e a : Type} [DecidableEq e] [DecidableEq a] :
    DecidableEq (Except e a) := fun x y =>
  match x, y with
  | .ok v, .ok w =>
    if h : v = w then .isTrue (by rw [h]) else
      .isFalse (by intro hx; cases hx; exact h rfl)
  | .error v, .error w =>
    if h : v = w then .isTrue (by rw [h]) else
      .isFalse (by intro hx; cases hx; exact h rfl)
  | .ok _, .error _ => .isFalse (by intro hx; cases hx)
  | .error _, .ok _ => .isFalse (by intro hx; cases hx)

/-! ## Character and string utilities -/

/-- Python regex `\w` (word character), ASCII fragment: letter, digit or
underscore. -/
def isWordChar (c : Char) : Bool := c.isAlphanum || c == '_'

/-- ASCII uppercase of a character list; models Python `str.upper()` on ASCII
input. -/
def upperL (l : List Char) : List Char := l.map Char.toUpper

/-- ASCII lowercase of a character list; models Python `str.lower()` on ASCII
input. -/
def lowerL (l : List Char) : List Char := l.map Char.toLower

/-- Python `str.strip()`: remove leading and trailing whitespace. -/
def trimL (l : List Char) : List Char :=
  ((l.dropWhile Char.isWhitespace).reverse.dropWhile Char.isWhitespace).reverse

/-- Substring containment: models Python `sub in s`. -/
def containsSub (pat l : List Char) : Bool :=
  l.tails.any (fun t => pat.isPrefixOf t)

theorem dropWhileLenLe {α : Type} (p : α → Bool) (l : List α) :
    (l.dropWhile p).length ≤ l.length := by
  induction l with
  | nil => simp
  | cons c cs ih =>
    by_cases h : p c = true <;> simp [List.dropWhile_cons, h] <;> omega

/-- One-pass tokenizer: `cur` accumulates the current word-character run in
reverse; a run is emitted when it ends. -/
def wordsOfAux (cur : List Char) : List Char → List (List Char)
  | [] => if cur.isEmpty then [] else [cur.reverse]
  | c :: cs =>
    if isWordChar c then wordsOfAux (c :: cur) cs
    else if cur.isEmpty then wordsOfAux [] cs
    else cur.reverse :: wordsOfAux [] cs

/-- The maximal runs of word characters of a string, in order.  A regex
`\bKW\b` (with `KW` consisting only of word characters) matches in `s`
exactly when some run in `wordsOf s` equals `KW`: the two `\b` anchors force
the match to start and end at run boundaries, and since `KW` is all word
characters the matched substring is a full run. -/
def wordsOf (l : List Char) : List (List Char) := wordsOfAux [] l

/-- Decimal digits of `n`, most significant first, with structural fuel;
`fuel ≥ n` always suffices since the value shrinks by a factor of 10 each
step. -/
def natToCharsAux : Nat → Nat → List Char
  | 0, n => [Nat.digitChar (n % 10)]
  | fuel + 1, n =>
    if n < 10 then [Nat.digitChar n]
    else natToCharsAux fuel (n / 10) ++ [Nat.digitChar (n % 10)]

/-- Decimal rendering of a natural number; models Python `str(int)` as used
by the f-string `f"... LIMIT \x7brequest.limit\x7d"`. -/
def natToChars (n : Nat) : List Char := natToCharsAux n n

/-! ## SafeQueryValidator: shared keyword taxonomy

`DangerousOperation` is the `Enum` of `sql_query_validator.py` lines 48-90;
`values` lists `op.value` for its members in declaration order
(`self.dangerous_keywords = \x7bop.value for op in DangerousOperation\x7d`). -/

def DangerousOperation.values : List (List Char) :=
  ["INSERT", "UPDATE", "DELETE", "MERGE", "REPLACE", "TRUNCATE",
   "CREATE", "ALTER", "DROP", "RENAME",
   "GRANT", "REVOKE",
   "COMMIT", "ROLLBACK", "SAVEPOINT",
   "CALL", "EXECUTE", "EXEC", "COPY", "LOAD", "INSTALL", "ATTACH",
   "DETACH", "PRAGMA", "SET",
   "CHECKPOINT", "VACUUM", "ANALYZE", "EXPORT", "IMPORT"].map String.toList

/-- The information content of the `QueryValidationError` messages raised by
`SafeQueryValidator`; each constructor corresponds to one `raise` site and
carries the data interpolated into that site's f-string. -/
inductive VErr where
  /-- "Empty query provided" (validate, line 147). -/
  | emptyQuery : VErr
  /-- "Query parsing failed: \x7bstr(e)\x7d. ..." (AST path, line 169). -/
  | parseError (diag : List Char) : VErr
  /-- "Only SELECT queries are allowed. Found: \x7bstatement_type\x7d ..."
  (AST path, line 180) and "Query must start with SELECT. Found: ..."
  (regex path, line 256). -/
  | notASelect (found : List Char) : VErr
  /-- "Dangerous operation detected: \x7boperation\x7d. ..." (AST traversal,
  line 208). -/
  | dangerousOperation (kind : List Char) : VErr
  /-- "Dangerous function call detected: \x7bfunc_name\x7d(). ..." (AST
  traversal, line 218). -/
  | dangerousFunctionCall (fname : List Char) : VErr
  /-- "Multiple SQL statements detected (semicolon found). ..." (regex path,
  line 238). -/
  | multiStatement : VErr
  /-- "Dangerous SQL operation detected: \x7bkeyword\x7d. ..." (regex path,
  line 247). -/
  | dangerousKeyword (kw : List Char) : VErr
deriving DecidableEq

/-! ## SafeQueryValidator: regex fallback path -/

/-- `re.sub(r'--[^\n]*', '', query)` as a one-pass scanner: the `Bool`
state is true while inside a `--` comment, which ends just before the next
newline (the newline itself is kept, matching `[^\n]*`). -/
def removeLineCommentsAux : Bool → List Char → List Char
  | true, [] => []
  | true, c :: rest =>
    if c = '\n' then '\n' :: removeLineCommentsAux false rest
    else removeLineCommentsAux true rest
  | false, [] => []
  | false, [c] => [c]
  | false, c1 :: c2 :: rest =>
    if c1 = '-' ∧ c2 = '-' then removeLineCommentsAux true rest
    else c1 :: removeLineCommentsAux false (c2 :: rest)

/-- Remove each `--` comment up to the end of its line (leftmost-first). -/
def removeLineComments (l : List Char) : List Char :=
  removeLineCommentsAux false l

/-- Drop characters through the closing `*/` of a block comment, returning
the remainder, or `none` when the comment is unclosed; the nearest closer is
taken, matching the non-greedy `.*?`. -/
def dropToClose : List Char → Option (List Char)
  | [] => none
  | [_] => none
  | c1 :: c2 :: rest =>
    if c1 = '*' ∧ c2 = '/' then some rest
    else dropToClose (c2 :: rest)

theorem dropToClose_length_le :
    ∀ l r, dropToClose l = some r → r.length ≤ l.length
  | [], _, h => by simp [dropToClose] at h
  | [c], _, h => by simp [dropToClose] at h
  | c1 :: c2 :: rest, r, h => by
    simp only [dropToClose] at h
    split at h
    · cases h; simp only [List.length_cons]; omega
    · exact Nat.le_succ_of_le (dropToClose_length_le (c2 :: rest) r h)

/-- `re.sub(r'/\*.*?\*/', '', query, flags=re.DOTALL)` with structural fuel
(each step consumes at least one character, so `fuel ≥ length` always
suffices): remove each block comment together with its nearest closer; an
unclosed `/*` is left in place (the regex does not match there). -/
def removeBlockCommentsAux : Nat → List Char → List Char
  | 0, l => l
  | _ + 1, [] => []
  | _ + 1, [c] => [c]
  | fuel + 1, c1 :: c2 :: rest =>
    if c1 = '/' ∧ c2 = '*' then
      match dropToClose rest with
      | some r3 => removeBlockCommentsAux fuel r3
      | none => c1 :: c2 :: rest
    else c1 :: removeBlockCommentsAux fuel (c2 :: rest)

/-- Remove every closed block comment, leftmost and non-greedy. -/
def removeBlockComments (l : List Char) : List Char :=
  removeBlockCommentsAux l.length l

/-- `SafeQueryValidator._remove_sql_comments` (lines 261-269): line comments
are removed first, then block comments. -/
def removeSqlComments (q : List Char) : List Char :=
  removeBlockComments (removeLineComments q)

/-- After a semicolon: optional whitespace then a word character
(the `\s*\w` tail of the multi-statement pattern). -/
def wordAfterOptWs : List Char → Bool
  | [] => false
  | c :: cs => if c.isWhitespace then wordAfterOptWs cs else isWordChar c

/-- `re.search(r';\s*\w', text)`: some semicolon is followed, after optional
whitespace, by a word character (`_compile_patterns`, line 134). -/
def hasMultiStatement : List Char → Bool
  | [] => false
  | c :: cs => (c == ';' && wordAfterOptWs cs) || hasMultiStatement cs

/-- `re.search(dangerous_pattern, text)` for the alternation
`\b(?:KW1|...|KWn)\b` over `dangerous_keywords`, `re.IGNORECASE`: the first
(leftmost) whole word of `text` that, uppercased, is a dangerous keyword;
the regex match object's `group(0).upper()` equals that uppercased word.
(Set iteration order of the Python alternation is irrelevant: with `\b` on
both sides each match is a full word-character run, so at most one
alternative can match at each position.) -/
def firstDangerousWord (kws : List (List Char)) (text : List Char) :
    Option (List Char) :=
  ((wordsOf text).find? (fun w => kws.contains (upperL w))).map upperL

/-- `SafeQueryValidator._get_first_keyword` (lines 271-275):
`re.match(r'\s*(\w+)', query)`, uppercased. -/
def firstKeyword (q : List Char) : Option (List Char) :=
  let t := q.dropWhile Char.isWhitespace
  let w := t.takeWhile isWordChar
  if w.isEmpty then none else some (upperL w)

/-- `SafeQueryValidator._validate_with_regex` (lines 227-259): strip
comments, then reject multiple statements, then dangerous keywords, then a
first token other than SELECT; otherwise accept. -/
def validateWithRegex (kws : List (List Char)) (q : List Char) :
    Except VErr Unit :=
  let qnc := removeSqlComments q
  if hasMultiStatement qnc then .error .multiStatement
  else
    match firstDangerousWord kws qnc with
    | some kw => .error (.dangerousKeyword kw)
    | none =>
      match firstKeyword qnc with
      | some fk =>
        if fk == ("SELECT".toList) then .ok () else .error (.notASelect fk)
      | none => .error (.notASelect ("unknown".toList))

/-! ## SafeQueryValidator: AST path

`sqlglot` itself is an external dependency (not part of this repository);
its parse trees are modelled by `SqlAst` below, and `parse_one` by an
oracle function carried in the `Validator` structure.  The node kinds are
exactly the `sqlglot.exp` classes that `_check_ast_for_dangerous_operations`
distinguishes; every other expression class is `other` with its Python
class name.  `node.iter_expressions()` is the child list. -/

inductive NodeKind where
  | select : NodeKind
  | insert : NodeKind
  | update : NodeKind
  | delete : NodeKind
  | drop : NodeKind
  | create : NodeKind
  | alter : NodeKind
  | merge : NodeKind
  | truncate : NodeKind
  | grant : NodeKind
  | revoke : NodeKind
  | command : NodeKind
  /-- `exp.Anonymous` function call; `fname` is `node.this`. -/
  | anonymous (fname : List Char) : NodeKind
  /-- any other expression class; `tname` is its Python class name. -/
  | other (tname : List Char) : NodeKind
deriving DecidableEq

/-- `type(node).__name__` for each modelled class. -/
def kindName : NodeKind → List Char
  | .select => "Select".toList
  | .insert => "Insert".toList
  | .update => "Update".toList
  | .delete => "Delete".toList
  | .drop => "Drop".toList
  | .create => "Create".toList
  | .alter => "Alter".toList
  | .merge => "Merge".toList
  | .truncate => "Truncate".toList
  | .grant => "Grant".toList
  | .revoke => "Revoke".toList
  | .command => "Command".toList
  | .anonymous _ => "Anonymous".toList
  | .other t => t

/-- Membership of the tuple `dangerous_types` (lines 199-203): `exp.Insert,
exp.Update, exp.Delete, exp.Drop, exp.Create, exp.Alter, exp.Merge,
exp.Truncate, exp.Grant, exp.Revoke, exp.Command`. -/
def isDangerousType : NodeKind → Bool
  | .insert | .update | .delete | .drop | .create | .alter | .merge
  | .truncate | .grant | .revoke | .command => true
  | _ => false

/-- A sqlglot parse tree: a node kind together with the child expressions
returned by `iter_expressions()`. -/
inductive SqlAst where
  | mk (kind : NodeKind) (children : List SqlAst) : SqlAst

def SqlAst.kind : SqlAst → NodeKind
  | .mk k _ => k

def SqlAst.children : SqlAst → List SqlAst
  | .mk _ cs => cs

mutual
/-- `SafeQueryValidator._check_ast_for_dangerous_operations` (lines
189-225): for each node, first reject dangerous statement kinds, then
anonymous function calls whose uppercased name is a dangerous keyword, then
recurse into all children; the raised exception aborts the traversal, so the
result is the error of the first offending node in pre-order. -/
def checkAst (kws : List (List Char)) : SqlAst → Except VErr Unit
  | .mk k cs =>
    if isDangerousType k then .error (.dangerousOperation (kindName k))
    else
      match k with
      | .anonymous nm =>
        if kws.contains (upperL nm) then
          .error (.dangerousFunctionCall (upperL nm))
        else checkAstList kws cs
      | _ => checkAstList kws cs

/-- The `for child in node.iter_expressions()` loop of the traversal. -/
def checkAstList (kws : List (List Char)) : List SqlAst → Except VErr Unit
  | [] => .ok ()
  | c :: cs =>
    match checkAst kws c with
    | .error e => .error e
    | .ok _ => checkAstList kws cs
end

/-- The state of a `SafeQueryValidator` instance after `__init__` (lines
105-120), together with the external capability of the optional `sqlglot`
dependency: `sqlglotAvailable` models the module-level `SQLGLOT_AVAILABLE`
flag and `parse` models `sqlglot.parse_one(·, dialect=self.dialect)`
(returning the parser's diagnostic on failure as a `ParseError`). -/
structure Validator where
  dialect : List Char
  strictMode : Bool
  sqlglotAvailable : Bool
  parse : List Char → Except (List Char) SqlAst
  dangerousKeywords : List (List Char)

/-- `SafeQueryValidator.__init__`: `dangerous_keywords` is built from the
`DangerousOperation` enumeration. -/
def Validator.make (dialect : List Char) (strictMode : Bool)
    (sqlglotAvailable : Bool) (parse : List Char → Except (List Char) SqlAst) :
    Validator :=
  { dialect := dialect, strictMode := strictMode,
    sqlglotAvailable := sqlglotAvailable, parse := parse,
    dangerousKeywords := DangerousOperation.values }

/-- `SafeQueryValidator._validate_with_sqlglot` (lines 158-187). -/
def validateWithSqlglot (v : Validator) (q : List Char) : Except VErr Unit :=
  match v.parse q with
  | .error msg =>
    if v.strictMode then .error (.parseError msg)
    else validateWithRegex v.dangerousKeywords q
  | .ok t =>
    if t.kind == NodeKind.select then checkAst v.dangerousKeywords t
    else .error (.notASelect (kindName t.kind))

/-- `SafeQueryValidator.validate` (lines 136-156): reject empty input, strip
whitespace, then use the AST path when sqlglot is available and the regex
path otherwise. -/
def validate (v : Validator) (q : List Char) : Except VErr Unit :=
  if q.isEmpty || (trimL q).isEmpty then .error .emptyQuery
  else
    let q1 := trimL q
    if v.sqlglotAvailable then validateWithSqlglot v q1
    else validateWithRegex v.dangerousKeywords q1

/-- `SafeQueryValidator.validate_and_explain` (lines 277-293): run
`validate` under `try`, return `(True, None)` on success and
`(False, str(e))` when a `QueryValidationError` is caught. -/
def validateAndExplain (v : Validator) (q : List Char) : Bool × Option VErr :=
  match validate v q with
  | .ok _ => (true, none)
  | .error e => (false, some e)

/-! ## Tree predicates used to state the AST-path claims -/

mutual
/-- Some node of the tree (the root included) satisfies `p`. -/
def anyNode (p : SqlAst → Bool) : SqlAst → Bool
  | .mk k cs => p (.mk k cs) || anyNodeList p cs

def anyNodeList (p : SqlAst → Bool) : List SqlAst → Bool
  | [] => false
  | c :: cs => anyNode p c || anyNodeList p cs
end

/-- A node of a kind in the `dangerous_types` tuple. -/
def dangerNodeP (n : SqlAst) : Bool := isDangerousType n.kind

/-- An `exp.Anonymous` call whose uppercased name is a dangerous keyword. -/
def dangerCallP (kws : List (List Char)) (n : SqlAst) : Bool :=
  match n.kind with
  | .anonymous nm => kws.contains (upperL nm)
  | _ => false

/-- A node of the given kind. -/
def kindIs (k : NodeKind) (n : SqlAst) : Bool := n.kind == k

/-- The tree contains a node whose kind is in the `dangerous_types` tuple. -/
def hasDangerousNode (t : SqlAst) : Bool := anyNode dangerNodeP t

/-- The tree contains an `exp.Anonymous` call whose uppercased name is a
dangerous keyword. -/
def hasDangerousCall (kws : List (List Char)) (t : SqlAst) : Bool :=
  anyNode (dangerCallP kws) t

/-- The tree contains a node of the given kind. -/
def containsKind (t : SqlAst) (k : NodeKind) : Bool :=
  anyNode (kindIs k) t

/-! ## Stateful rendering of `validate` (for the statelessness claim)

Python methods receive the instance `self` and may in principle mutate it;
the faithful rendering of a method is therefore
`Validator → args → result × Validator`, with the instance threaded through
every call the method makes.  The definitions below mirror the call graph of
`SafeQueryValidator.validate`; each step returns the instance it received
because the source bodies contain no assignment to `self`, and the theorems
prove that the composition therefore returns the instance unchanged. -/

mutual
def checkAstS (v : Validator) : SqlAst → Except VErr Unit × Validator
  | .mk k cs =>
    if isDangerousType k then (.error (.dangerousOperation (kindName k)), v)
    else
      match k with
      | .anonymous nm =>
        if v.dangerousKeywords.contains (upperL nm) then
          (.error (.dangerousFunctionCall (upperL nm)), v)
        else checkAstListS v cs
      | _ => checkAstListS v cs

def checkAstListS (v : Validator) : List SqlAst → Except VErr Unit × Validator
  | [] => (.ok (), v)
  | c :: cs =>
    match checkAstS v c with
    | (.error e, v1) => (.error e, v1)
    | (.ok _, v1) => checkAstListS v1 cs
end

def validateWithRegexS (v : Validator) (q : List Char) :
    Except VErr Unit × Validator :=
  let qnc := removeSqlComments q
  if hasMultiStatement qnc then (.error .multiStatement, v)
  else
    match firstDangerousWord v.dangerousKeywords qnc with
    | some kw => (.error (.dangerousKeyword kw), v)
    | none =>
      match firstKeyword qnc with
      | some fk =>
        if fk == ("SELECT".toList) then (.ok (), v)
        else (.error (.notASelect fk), v)
      | none => (.error (.notASelect ("unknown".toList)), v)

def validateWithSqlglotS (v : Validator) (q : List Char) :
    Except VErr Unit × Validator :=
  match v.parse q with
  | .error msg =>
    if v.strictMode then (.error (.parseError msg), v)
    else validateWithRegexS v q
  | .ok t =>
    if t.kind == NodeKind.select then checkAstS v t
    else (.error (.notASelect (kindName t.kind)), v)

def validateS (v : Validator) (q : List Char) : Except VErr Unit × Validator :=
  if q.isEmpty || (trimL q).isEmpty then (.error .emptyQuery, v)
  else
    let q1 := trimL q
    if v.sqlglotAvailable then validateWithSqlglotS v q1
    else validateWithRegexS v q1

/-! ## SafeDuckDBExecutor

`execute_safe_query` (lines 328-354) validates first and only then calls
`self.connection.execute`.  The engine is modelled by an oracle `db`; the
second component of the result records, in order, every SQL string handed to
the engine, so "the engine is never invoked" is "this trace is empty". -/

inductive ExecOutcome (R : Type) where
  /-- normal return of the fetched rows. -/
  | ok (r : R) : ExecOutcome R
  /-- a `QueryValidationError` raised by `self.validator.validate`;
  propagates to the caller uncaught. -/
  | validationError (e : VErr) : ExecOutcome R
  /-- "Query execution failed: ..." wrapping an engine exception. -/
  | executionError (msg : List Char) : ExecOutcome R
deriving DecidableEq

def executeSafeQuery {R : Type} (v : Validator)
    (db : List Char → Except (List Char) R) (q : List Char) :
    ExecOutcome R × List (List Char) :=
  match validate v q with
  | .error e => (.validationError e, [])
  | .ok _ =>
    match db q with
    | .ok r => (.ok r, [q])
    | .error m => (.executionError m, [q])

/-! ## AnalyticsService (`src/services/analytics_service.py`) -/

namespace Analytics

/-- `AnalyticsService.DANGEROUS_KEYWORDS` (lines 26-45), with the `\b`
anchors of each pattern rendered by the whole-word scan below; the list
order is the scan order of `validate_query`. -/
def DANGEROUS_KEYWORDS : List (List Char) :=
  ["DROP", "DELETE", "INSERT", "UPDATE", "TRUNCATE", "ALTER", "CREATE",
   "REPLACE", "EXEC", "EXECUTE", "CALL", "ATTACH", "DETACH", "PRAGMA",
   "LOAD", "INSTALL", "COPY", "EXPORT"].map String.toList

/-- `AnalyticsService.ALLOWED_TABLES` (line 48). -/
def ALLOWED_TABLES : List (List Char) :=
  ["users", "accesses", "user_accesses"].map String.toList

/-- The information content of the `ValidationException`s raised by
`AnalyticsService`. -/
inductive AErr where
  /-- "Query contains forbidden keyword: \x7bkeyword_clean\x7d" (line 75). -/
  | forbiddenKeyword (kw : List Char) : AErr
  /-- "Query contains forbidden comment syntax" (line 82). -/
  | forbiddenComment : AErr
  /-- "Multiple SQL statements not allowed" (line 89). -/
  | multipleStatements : AErr
  /-- "Query references forbidden table: \x7btable\x7d", with the allow-list
  in the details (line 101). -/
  | forbiddenTable (table : List Char) (allowed : List (List Char)) : AErr
  /-- "Query execution failed: ..." (line 152). -/
  | executionFailed (msg : List Char) : AErr
deriving DecidableEq

/-- The keyword loop of `validate_query` (lines 72-78): the first pattern in
list order whose keyword occurs as a whole word in `query.upper()`
(`re.search(r'\bKW\b', query_upper, re.IGNORECASE)`). -/
def keywordHit (q : List Char) : Option (List Char) :=
  DANGEROUS_KEYWORDS.find? (fun kw => (wordsOf (upperL q)).contains kw)

/-- Line 81: `'--' in query or '/*' in query or '*/' in query`. -/
def hasCommentMarks (q : List Char) : Bool :=
  containsSub ("--".toList) q || containsSub ("/*".toList) q ||
    containsSub ("*/".toList) q

/-- Line 88: `query.count(';') > 1 or (';' in query and not
query.strip().endswith(';'))`. -/
def multiStatementCond (q : List Char) : Bool :=
  decide (q.count ';' > 1) ||
    (decide (q.count ';' ≥ 1) && !((trimL q).getLast? == some ';'))

/-- The `FROM`/`JOIN` head of one `re.findall(r'(?:FROM|JOIN)\\s+([a-zA-Z_][a-zA-Z0-9_]*)')`
match attempt: if the text starts with `FROM` or `JOIN` (each 4 characters),
the remainder after it. -/
def fromJoinRest (s : List Char) : Option (List Char) :=
  if ("FROM".toList).isPrefixOf s then some (s.drop 4)
  else if ("JOIN".toList).isPrefixOf s then some (s.drop 4)
  else none

/-- The `\\s+([a-zA-Z_][a-zA-Z0-9_]*)` tail of a match attempt: at least one
whitespace, then an identifier starting with a letter or underscore; returns
the captured identifier and the remainder after the whole match. -/
def identCapture (r : List Char) : Option (List Char × List Char) :=
  match r with
  | [] => none
  | c :: r2 =>
    if c.isWhitespace then
      match r2.dropWhile Char.isWhitespace with
      | [] => none
      | d :: rest =>
        if d.isAlpha || d = '_' then
          let ident := (d :: rest).takeWhile (fun x => x.isAlphanum || x = '_')
          some (ident, (d :: rest).drop ident.length)
        else none
    else none

/-- One match attempt of the table-extraction regex at the current
position. -/
def matchFromJoinAt (s : List Char) : Option (List Char × List Char) :=
  (fromJoinRest s).bind identCapture

theorem fromJoinRest_some (s r : List Char) (h : fromJoinRest s = some r) :
    r.length + 4 = s.length := by
  have hlen : ("FROM".toList).length = 4 := by decide
  have hlen2 : ("JOIN".toList).length = 4 := by decide
  simp only [fromJoinRest] at h
  split at h
  · next hp =>
    cases h
    have h4 : 4 ≤ s.length := by
      have := List.IsPrefix.length_le (List.isPrefixOf_iff_prefix.mp hp)
      omega
    simp only [List.length_drop]
    omega
  · split at h
    · next hp =>
      cases h
      have h4 : 4 ≤ s.length := by
        have := List.IsPrefix.length_le (List.isPrefixOf_iff_prefix.mp hp)
        omega
      simp only [List.length_drop]
      omega
    · exact absurd h (by simp)

theorem identCapture_some (r t rem : List Char)
    (h : identCapture r = some (t, rem)) : rem.length < r.length := by
  match r with
  | [] => simp [identCapture] at h
  | c :: r2 =>
    simp only [identCapture] at h
    split at h
    · split at h
      · exact absurd h (by simp)
      · next d rest hdw =>
        split at h
        · simp only [Option.some.injEq, Prod.mk.injEq] at h
          have h1 : rem.length ≤ (d :: rest).length := by
            rw [← h.2]
            simpa using Nat.sub_le (d :: rest).length _
          have h2 : (d :: rest).length ≤ r2.length := hdw ▸ dropWhileLenLe Char.isWhitespace r2
          simp only [List.length_cons] at *
          omega
        · exact absurd h (by simp)
    · exact absurd h (by simp)

theorem matchFromJoinAt_rem_lt (s t rem : List Char)
    (h : matchFromJoinAt s = some (t, rem)) : rem.length < s.length := by
  simp only [matchFromJoinAt] at h
  match hf : fromJoinRest s with
  | none => rw [hf] at h; exact absurd h (by simp)
  | some r =>
    rw [hf] at h
    have := identCapture_some r t rem h
    have := fromJoinRest_some s r hf
    omega

/-- `re.findall` over the table-extraction pattern, with structural fuel
(each step consumes at least one character — `matchFromJoinAt_rem_lt` — so
`fuel ≥ length` always suffices): scan left to right; on a match, record the
captured identifier and resume after the match (non-overlapping); otherwise
advance one character. -/
def extractTablesAux : Nat → List Char → List (List Char)
  | 0, _ => []
  | _ + 1, [] => []
  | fuel + 1, c :: rest =>
    match matchFromJoinAt (c :: rest) with
    | some (tbl, rem) => tbl :: extractTablesAux fuel rem
    | none => extractTablesAux fuel rest

/-- All identifiers captured by `(?:FROM|JOIN)\s+([a-zA-Z_][a-zA-Z0-9_]*)`. -/
def extractTables (l : List Char) : List (List Char) :=
  extractTablesAux l.length l

/-- The table loop of `validate_query` (lines 94-107): the first extracted
name whose lowercase form is not an allowed table.  The extraction runs on
`query_upper`, so the reported name is uppercased. -/
def firstForbiddenTable (q : List Char) : Option (List Char) :=
  (extractTables (upperL q)).find? (fun t => !(ALLOWED_TABLES.contains (lowerL t)))

/-- `AnalyticsService.validate_query` (lines 59-107): dangerous keywords,
then comment syntax, then the semicolon condition, then the table
allow-list; each check raises and thereby short-circuits the rest. -/
def validateQuery (q : List Char) : Except AErr Unit :=
  match keywordHit q with
  | some kw => .error (.forbiddenKeyword kw)
  | none =>
    if hasCommentMarks q then .error .forbiddenComment
    else if multiStatementCond q then .error .multipleStatements
    else
      match firstForbiddenTable q with
      | some t => .error (.forbiddenTable t ALLOWED_TABLES)
      | none => .ok ()

/-- Lines 126-128 of `execute_query`: `query = request.query.strip()`, then
drop one trailing semicolon when present. -/
def stripTrailingSemi (q : List Char) : List Char :=
  let q1 := trimL q
  if q1.getLast? == some ';' then q1.dropLast else q1

/-- The query-preparation step of `AnalyticsService.execute_query` (lines
125-132): strip outer whitespace, drop one trailing semicolon, and append
`LIMIT <n>` exactly when the uppercased text does not contain the substring
`LIMIT` (`'LIMIT' not in query.upper()` is a substring test, not a keyword
test). -/
def prepareForExecution (q : List Char) (limit : Nat) : List Char :=
  let q2 := stripTrailingSemi q
  if containsSub ("LIMIT".toList) (upperL q2) then q2
  else q2 ++ (" LIMIT ".toList ++ natToChars limit)

/-- `SQLQueryRequest` of `src/models/analytics.py` as consumed by
`execute_query`: the query text and the row limit. -/
structure SQLQueryRequest where
  query : List Char
  limit : Nat

/-- `AnalyticsService.execute_query` (lines 109-155) with the engine
modelled by an oracle `db`; the second component records every SQL string
handed to `self.db.execute`, so a rejected query leaves it empty.  Engine
exceptions are wrapped as "Query execution failed" `ValidationException`s. -/
def executeQuery {R : Type} (db : List Char → Except (List Char) R)
    (req : SQLQueryRequest) : Except AErr R × List (List Char) :=
  match validateQuery req.query with
  | .error e => (.error e, [])
  | .ok _ =>
    let prepared := prepareForExecution req.query req.limit
    match db prepared with
    | .ok r => (.ok r, [prepared])
    | .error m => (.error (.executionFailed m), [prepared])

end Analytics

/-! ## Spec-side definition (for stating claim C2 as written)

The claim quantifies over queries "containing a semicolon followed by more
non-whitespace content"; this is its direct rendering, used only to compare
the claim's wording with the code's `;\\s*\\w` pattern. -/

def specSemiThenContent : List Char → Bool
  | [] => false
  | c :: cs =>
    (c == ';' && !((cs.dropWhile Char.isWhitespace).isEmpty)) ||
      specSemiThenContent cs


/-! ## Helper lemmas: AST traversal -/

theorem SqlAst.ind {P : SqlAst → Prop}
    (h : ∀ k cs, (∀ c ∈ cs, P c) → P (SqlAst.mk k cs)) : ∀ t, P t
  | .mk k cs => h k cs (fun c hc => SqlAst.ind h c)
termination_by t => sizeOf t
decreasing_by
  have := List.sizeOf_lt_of_mem hc
  simp only [SqlAst.mk.sizeOf_spec]
  omega

theorem anyNode_mk (p : SqlAst → Bool) (k : NodeKind) (cs : List SqlAst) :
    anyNode p (.mk k cs) = (p (.mk k cs) || anyNodeList p cs) := by
  simp [anyNode]

theorem anyNodeList_eq_any (p : SqlAst → Bool) (l : List SqlAst) :
    anyNodeList p l = l.any (anyNode p) := by
  induction l with
  | nil => simp [anyNodeList]
  | cons c cs ih => simp [anyNodeList, ih]

theorem anyNode_of_mem (p : SqlAst → Bool) (c : SqlAst) (k : NodeKind)
    (cs : List SqlAst) (hc : c ∈ cs) (h : anyNode p c = true) :
    anyNode p (.mk k cs) = true := by
  rw [anyNode_mk, anyNodeList_eq_any]
  simp only [Bool.or_eq_true, List.any_eq_true]
  exact Or.inr ⟨c, hc, h⟩

theorem checkAstList_ok_iff (kws : List (List Char)) (cs : List SqlAst) :
    checkAstList kws cs = .ok () ↔ ∀ c ∈ cs, checkAst kws c = .ok () := by
  induction cs with
  | nil => simp [checkAstList]
  | cons c cs ih =>
    simp only [checkAstList]
    cases h : checkAst kws c with
    | error e => simp [h]
    | ok u => cases u; simp [h, ih]

theorem checkAstList_error (kws : List (List Char)) (cs : List SqlAst)
    (e : VErr) (h : checkAstList kws cs = .error e) :
    ∃ c ∈ cs, checkAst kws c = .error e := by
  induction cs with
  | nil => simp [checkAstList] at h
  | cons c cs ih =>
    simp only [checkAstList] at h
    split at h
    · next e2 hc =>
      cases h
      exact ⟨c, by simp, hc⟩
    · next u hc =>
      obtain ⟨x, hx, he⟩ := ih h
      exact ⟨x, by simp [hx], he⟩

theorem checkAst_step_danger (kws : List (List Char)) (k : NodeKind)
    (cs : List SqlAst) (hd : isDangerousType k = true) :
    checkAst kws (.mk k cs) = .error (.dangerousOperation (kindName k)) := by
  simp [checkAst, hd]

theorem checkAst_step_call (kws : List (List Char)) (nm : List Char)
    (cs : List SqlAst) (hd : isDangerousType (.anonymous nm) = false)
    (hc : kws.contains (upperL nm) = true) :
    checkAst kws (.mk (.anonymous nm) cs) =
      .error (.dangerousFunctionCall (upperL nm)) := by
  have hc2 : upperL nm ∈ kws := by simpa using hc
  simp [checkAst, hd, hc2]

theorem checkAst_step_rec (kws : List (List Char)) (k : NodeKind)
    (cs : List SqlAst) (hd : isDangerousType k = false)
    (hc : dangerCallP kws (.mk k cs) = false) :
    checkAst kws (.mk k cs) = checkAstList kws cs := by
  cases k <;> simp_all [checkAst, dangerCallP, SqlAst.kind, isDangerousType]

theorem anyNode_mk_false (p : SqlAst → Bool) (k : NodeKind) (cs : List SqlAst) :
    anyNode p (.mk k cs) = false ↔
      (p (.mk k cs) = false ∧ ∀ x ∈ cs, anyNode p x = false) := by
  rw [anyNode_mk, anyNodeList_eq_any]
  simp [List.any_eq_false]

theorem checkAst_ok_iff (kws : List (List Char)) :
    ∀ t, checkAst kws t = .ok () ↔
      (hasDangerousNode t = false ∧ hasDangerousCall kws t = false) := by
  refine SqlAst.ind (fun k cs ih => ?_)
  by_cases hd : isDangerousType k = true
  · rw [checkAst_step_danger kws k cs hd]
    simp [hasDangerousNode, anyNode_mk, dangerNodeP, SqlAst.kind, hd]
  · have hd2 : isDangerousType k = false := by simpa using hd
    by_cases hc : dangerCallP kws (.mk k cs) = true
    · have hk : ∃ nm, k = NodeKind.anonymous nm ∧
          kws.contains (upperL nm) = true := by
        cases k <;> simp_all [dangerCallP, SqlAst.kind]
      obtain ⟨nm, rfl, hcc⟩ := hk
      rw [checkAst_step_call kws nm cs hd2 hcc]
      simp [hasDangerousCall, anyNode_mk, hc]
    · have hc2 : dangerCallP kws (.mk k cs) = false := by simpa using hc
      rw [checkAst_step_rec kws k cs hd2 hc2, checkAstList_ok_iff]
      have hdp : dangerNodeP (.mk k cs) = false := by
        simp [dangerNodeP, SqlAst.kind, hd2]
      simp only [hasDangerousNode, hasDangerousCall, anyNode_mk_false, hdp,
        hc2, true_and]
      constructor
      · intro hall
        constructor <;> intro x hx
        · exact ((ih x hx).mp (hall x hx)).1
        · exact ((ih x hx).mp (hall x hx)).2
      · rintro ⟨h1, h2⟩ x hx
        exact (ih x hx).mpr ⟨h1 x hx, h2 x hx⟩

theorem checkAst_error_shape (kws : List (List Char)) :
    ∀ t, ∀ e, checkAst kws t = .error e →
      (∃ k2, isDangerousType k2 = true ∧ containsKind t k2 = true ∧
        e = .dangerousOperation (kindName k2)) ∨
      (∃ nm, containsKind t (.anonymous nm) = true ∧
        kws.contains (upperL nm) = true ∧
        e = .dangerousFunctionCall (upperL nm)) := by
  refine SqlAst.ind (fun k cs ih => ?_)
  intro e he
  by_cases hd : isDangerousType k = true
  · rw [checkAst_step_danger kws k cs hd] at he
    cases he
    left
    exact ⟨k, hd, by simp [containsKind, anyNode_mk, kindIs, SqlAst.kind], rfl⟩
  · have hd2 : isDangerousType k = false := by simpa using hd
    by_cases hc : dangerCallP kws (.mk k cs) = true
    · have hk : ∃ nm, k = NodeKind.anonymous nm ∧
          kws.contains (upperL nm) = true := by
        cases k <;> simp_all [dangerCallP, SqlAst.kind]
      obtain ⟨nm, rfl, hcc⟩ := hk
      rw [checkAst_step_call kws nm cs hd2 hcc] at he
      cases he
      right
      exact ⟨nm, by simp [containsKind, anyNode_mk, kindIs, SqlAst.kind],
        hcc, rfl⟩
    · have hc2 : dangerCallP kws (.mk k cs) = false := by simpa using hc
      rw [checkAst_step_rec kws k cs hd2 hc2] at he
      obtain ⟨c, hcs, hce⟩ := checkAstList_error kws cs e he
      rcases ih c hcs e hce with ⟨k2, h1, h2, h3⟩ | ⟨nm, h1, h2, h3⟩
      · exact Or.inl ⟨k2, h1, anyNode_of_mem _ c k cs hcs h2, h3⟩
      · exact Or.inr ⟨nm, anyNode_of_mem _ c k cs hcs h1, h2, h3⟩

theorem checkAst_ne_multi (kws : List (List Char)) (t : SqlAst) :
    checkAst kws t ≠ .error .multiStatement := by
  intro h
  rcases checkAst_error_shape kws t _ h with ⟨k2, -, -, h3⟩ | ⟨nm, -, -, h3⟩ <;>
    exact VErr.noConfusion h3

/-! ## Helper lemmas: the stateful rendering agrees with the pure one and
returns the instance unchanged -/

theorem checkAstListS_eq (cs : List SqlAst)
    (ih : ∀ c ∈ cs, ∀ v2 : Validator,
      checkAstS v2 c = (checkAst v2.dangerousKeywords c, v2)) :
    ∀ v : Validator,
      checkAstListS v cs = (checkAstList v.dangerousKeywords cs, v) := by
  induction cs with
  | nil => intro v; simp [checkAstListS, checkAstList]
  | cons c cs2 ih2 =>
    intro v
    have hc := ih c (by simp) v
    simp only [checkAstListS, checkAstList, hc]
    cases hx : checkAst v.dangerousKeywords c with
    | error e => simp
    | ok u =>
      cases u
      simpa using ih2 (fun x hx2 => ih x (by simp [hx2])) v

theorem checkAstS_eq :
    ∀ t, ∀ v : Validator,
      checkAstS v t = (checkAst v.dangerousKeywords t, v) := by
  refine SqlAst.ind (fun k cs ih v => ?_)
  have hl := checkAstListS_eq cs ih v
  by_cases hd : isDangerousType k = true
  · simp [checkAstS, checkAst, hd]
  · have hd2 : isDangerousType k = false := by simpa using hd
    cases k <;> simp_all [checkAstS, checkAst] <;>
      split <;> simp_all

theorem validateWithRegexS_eq (v : Validator) (q : List Char) :
    validateWithRegexS v q = (validateWithRegex v.dangerousKeywords q, v) := by
  unfold validateWithRegexS validateWithRegex
  dsimp only
  split
  · rfl
  · split
    · rfl
    · split
      · split <;> rfl
      · rfl

theorem validateWithSqlglotS_eq (v : Validator) (q : List Char) :
    validateWithSqlglotS v q = (validateWithSqlglot v q, v) := by
  unfold validateWithSqlglotS validateWithSqlglot
  split
  · split
    · rfl
    · exact validateWithRegexS_eq v q
  · split
    · exact checkAstS_eq _ v
    · rfl

theorem validateS_eq (v : Validator) (q : List Char) :
    validateS v q = (validate v q, v) := by
  unfold validateS validate
  split
  · rfl
  · split
    · exact validateWithSqlglotS_eq v (trimL q)
    · exact validateWithRegexS_eq v (trimL q)

/-! ## Helper lemmas: regex path -/

theorem firstDangerousWord_none_iff (kws : List (List Char)) (text : List Char) :
    firstDangerousWord kws text = none ↔
      ∀ w ∈ wordsOf text, kws.contains (upperL w) = false := by
  unfold firstDangerousWord
  rw [Option.map_eq_none']
  rw [List.find?_eq_none]
  constructor
  · intro h w hw
    cases hb : kws.contains (upperL w) with
    | false => rfl
    | true => exact absurd hb (h w hw)
  · intro h w hw
    rw [h w hw]
    simp

theorem firstDangerousWord_some (kws : List (List Char)) (text kw : List Char)
    (h : firstDangerousWord kws text = some kw) :
    ∃ w ∈ wordsOf text, kw = upperL w ∧ kws.contains (upperL w) = true := by
  unfold firstDangerousWord at h
  rw [Option.map_eq_some'] at h
  obtain ⟨w, hw, rfl⟩ := h
  have hp := List.find?_some hw
  exact ⟨w, List.mem_of_find?_eq_some hw, rfl, hp⟩

theorem validateWithRegex_multi (kws : List (List Char)) (q : List Char)
    (hm : hasMultiStatement (removeSqlComments q) = true) :
    validateWithRegex kws q = .error .multiStatement := by
  unfold validateWithRegex
  dsimp only
  rw [hm]
  rfl

theorem validateWithRegex_not_multi (kws : List (List Char)) (q : List Char)
    (hm : hasMultiStatement (removeSqlComments q) = false) :
    validateWithRegex kws q ≠ .error .multiStatement := by
  unfold validateWithRegex
  dsimp only
  rw [hm]
  intro h
  simp only [Bool.false_eq_true, if_false] at h
  split at h
  · cases h
  · split at h
    · split at h <;> cases h
    · cases h

theorem validateWithRegex_keyword (kws : List (List Char)) (q w : List Char)
    (hm : hasMultiStatement (removeSqlComments q) = false)
    (hw : w ∈ wordsOf (removeSqlComments q))
    (hkw : kws.contains (upperL w) = true) :
    ∃ kw, validateWithRegex kws q = .error (.dangerousKeyword kw) ∧
      kw ∈ kws := by
  unfold validateWithRegex
  dsimp only
  rw [hm]
  simp only [Bool.false_eq_true, if_false]
  cases hf : firstDangerousWord kws (removeSqlComments q) with
  | none =>
    exfalso
    have := (firstDangerousWord_none_iff kws (removeSqlComments q)).mp hf w hw
    rw [hkw] at this
    cases this
  | some kw =>
    obtain ⟨w2, hw2, rfl, hc2⟩ := firstDangerousWord_some kws _ kw hf
    exact ⟨upperL w2, rfl, by simpa using hc2⟩

theorem validateWithRegex_comment_invariant (kws : List (List Char))
    (q q2 : List Char) (h : removeSqlComments q = removeSqlComments q2) :
    validateWithRegex kws q = validateWithRegex kws q2 := by
  unfold validateWithRegex
  rw [h]

theorem validate_ast_ne_multi (v : Validator) (q : List Char) (t : SqlAst)
    (ha : v.sqlglotAvailable = true) (hp : v.parse (trimL q) = .ok t) :
    validate v q ≠ .error .multiStatement := by
  intro h
  unfold validate at h
  by_cases hemp : (q.isEmpty || (trimL q).isEmpty) = true
  · rw [if_pos hemp] at h; cases h
  · rw [if_neg hemp] at h
    dsimp only at h
    split at h
    · unfold validateWithSqlglot at h
      rw [hp] at h
      dsimp only at h
      split at h
      · exact checkAst_ne_multi v.dangerousKeywords t h
      · cases h
    · next hA => exact absurd ha hA

/-! ## Helper lemmas: AnalyticsService -/

theorem validateQuery_table (q t : List Char)
    (h1 : Analytics.keywordHit q = none)
    (h2 : Analytics.hasCommentMarks q = false)
    (h3 : Analytics.multiStatementCond q = false)
    (h4 : Analytics.firstForbiddenTable q = some t) :
    Analytics.validateQuery q =
        .error (.forbiddenTable t Analytics.ALLOWED_TABLES) ∧
      Analytics.ALLOWED_TABLES.contains (lowerL t) = false := by
  constructor
  · simp [Analytics.validateQuery, h1, h2, h3, h4]
  · have hp := List.find?_some h4
    simpa using hp

theorem validateQuery_ok_parts (q : List Char)
    (h : Analytics.validateQuery q = .ok ()) :
    Analytics.keywordHit q = none ∧ Analytics.hasCommentMarks q = false ∧
      Analytics.multiStatementCond q = false ∧
      Analytics.firstForbiddenTable q = none := by
  unfold Analytics.validateQuery at h
  split at h
  · cases h
  · next hk =>
    split at h
    · cases h
    · next hcs =>
      split at h
      · cases h
      · next hms =>
        split at h
        · cases h
        · next hft =>
          exact ⟨hk, by simpa using hcs, by simpa using hms, hft⟩

theorem memDropWhile {α : Type} {p : α → Bool} {c : α} {l : List α}
    (h : c ∈ l.dropWhile p) : c ∈ l := by
  induction l with
  | nil => simpa using h
  | cons a as ih =>
    rw [List.dropWhile_cons] at h
    split at h
    · exact List.mem_cons_of_mem a (ih h)
    · exact h

theorem memTrimL {c : Char} {l : List Char} (h : c ∈ trimL l) : c ∈ l := by
  unfold trimL at h
  rw [List.mem_reverse] at h
  have h2 := memDropWhile h
  rw [List.mem_reverse] at h2
  exact memDropWhile h2

theorem countDropWhileLe {α : Type} [DecidableEq α] (p : α → Bool) (a : α)
    (l : List α) : (l.dropWhile p).count a ≤ l.count a := by
  induction l with
  | nil => simp
  | cons c cs ih =>
    rw [List.dropWhile_cons]
    split
    · refine le_trans ih ?_
      rw [List.count_cons]
      omega
    · exact le_refl _

theorem countTrimLe (a : Char) (l : List Char) :
    (trimL l).count a ≤ l.count a := by
  unfold trimL
  rw [List.count_reverse]
  refine le_trans (countDropWhileLe _ a _) ?_
  rw [List.count_reverse]
  exact countDropWhileLe _ a l

theorem semiNotMemDropLast (l : List Char) (hc : l.count ';' ≤ 1)
    (hl : l.getLast? = some ';') : ';' ∉ l.dropLast := by
  have hne : l ≠ [] := by
    intro h
    subst h
    simp at hl
  have hsplit : l.dropLast ++ [l.getLast hne] = l :=
    List.dropLast_append_getLast hne
  have hlast : l.getLast hne = ';' := by
    rw [List.getLast?_eq_getLast l hne] at hl
    exact Option.some.inj hl
  intro hmem
  have h1 : 0 < l.dropLast.count ';' := List.count_pos_iff.mpr hmem
  have hcnt := congrArg (List.count ';') hsplit
  rw [List.count_append] at hcnt
  simp [hlast] at hcnt
  omega

theorem digitChar_isDigit (k : Nat) (h : k < 10) :
    (Nat.digitChar k).isDigit = true := by
  interval_cases k <;> decide

theorem natToCharsAux_digits (fuel : Nat) :
    ∀ n, ∀ c ∈ natToCharsAux fuel n, c.isDigit = true := by
  induction fuel with
  | zero =>
    intro n c hc
    simp only [natToCharsAux, List.mem_singleton] at hc
    subst hc
    exact digitChar_isDigit _ (Nat.mod_lt _ (by omega))
  | succ fuel ih =>
    intro n c hc
    simp only [natToCharsAux] at hc
    split at hc
    · next h =>
      simp only [List.mem_singleton] at hc
      subst hc
      exact digitChar_isDigit _ h
    · rw [List.mem_append] at hc
      rcases hc with hc | hc
      · exact ih (n / 10) c hc
      · simp only [List.mem_singleton] at hc
        subst hc
        exact digitChar_isDigit _ (Nat.mod_lt _ (by omega))

theorem natToChars_digits (n : Nat) :
    ∀ c ∈ natToChars n, c.isDigit = true :=
  natToCharsAux_digits n n

theorem semiNotMemNatToChars (n : Nat) : ';' ∉ natToChars n := by
  intro h
  exact absurd (natToChars_digits n ';' h) (by decide)

theorem stripTrailingSemi_semi_free (q : List Char)
    (hms : Analytics.multiStatementCond q = false) :
    ';' ∉ Analytics.stripTrailingSemi q := by
  unfold Analytics.multiStatementCond at hms
  rw [Bool.or_eq_false_iff] at hms
  obtain ⟨h1, h2⟩ := hms
  have hcount : q.count ';' ≤ 1 := by
    have := of_decide_eq_false h1
    omega
  have hcount2 : (trimL q).count ';' ≤ 1 := le_trans (countTrimLe ';' q) hcount
  unfold Analytics.stripTrailingSemi
  dsimp only
  split
  · next hend =>
    have hlq : (trimL q).getLast? = some ';' := by simpa using hend
    exact semiNotMemDropLast (trimL q) hcount2 hlq
  · next hend =>
    rcases Bool.and_eq_false_iff.mp h2 with h3 | h3
    · have hge : ¬ (q.count ';' ≥ 1) := of_decide_eq_false h3
      have hz : q.count ';' = 0 := by omega
      intro hmem
      exact absurd (memTrimL hmem) (List.count_eq_zero.mp hz)
    · exact absurd (by simpa using h3) hend

theorem prepare_semi_free (q : List Char) (n : Nat)
    (hms : Analytics.multiStatementCond q = false) :
    ';' ∉ Analytics.prepareForExecution q n := by
  have hbase := stripTrailingSemi_semi_free q hms
  unfold Analytics.prepareForExecution
  dsimp only
  split
  · exact hbase
  · intro hmem
    rw [List.mem_append] at hmem
    rcases hmem with hm | hm
    · exact hbase hm
    · rw [List.mem_append] at hm
      rcases hm with hm | hm
      · exact absurd hm (by decide)
      · exact semiNotMemNatToChars n hm

/-! ## Concrete fixtures for witnesses and counterexamples

Each fixture's `parse` oracle models the external sqlglot capability in one
concrete scenario; the embedding's theorems about trees quantify over the
oracle, and these fixtures instantiate it. -/

/-- A validator in the fallback configuration (`SQLGLOT_AVAILABLE = False`). -/
def lexValidator : Validator :=
  Validator.make ("duckdb".toList) true false
    (fun _ => .error ("sqlglot unavailable".toList))

/-- Parse tree of a `WITH evil AS (DELETE FROM users RETURNING *) SELECT *
FROM evil` query: a Select whose CTE body is a Delete node (children elided
to the ones the traversal distinguishes). -/
def cteDeleteTree : SqlAst :=
  .mk .select
    [.mk (.other ("With".toList)) [.mk (.other ("CTE".toList)) [.mk .delete []]]]

def cteDeleteValidator : Validator :=
  Validator.make ("duckdb".toList) true true (fun _ => .ok cteDeleteTree)

/-- A clean Select tree: a column and a table reference only. -/
def cleanSelectTree : SqlAst :=
  .mk .select [.mk (.other ("Column".toList)) [], .mk (.other ("Table".toList)) []]

def cleanSelectValidator : Validator :=
  Validator.make ("duckdb".toList) true true (fun _ => .ok cleanSelectTree)

/-- A Select containing a dangerous anonymous call before (in pre-order) a
dangerous Insert node. -/
def mixedDangerTree : SqlAst :=
  .mk .select [.mk (.anonymous ("delete".toList)) [], .mk .insert []]

def mixedDangerValidator : Validator :=
  Validator.make ("duckdb".toList) true true (fun _ => .ok mixedDangerTree)

/-- sqlglot available, every parse fails with a fixed diagnostic. -/
def parseFailValidator (strict : Bool) : Validator :=
  Validator.make ("duckdb".toList) strict true
    (fun _ => .error ("Invalid expression".toList))

/-! ## Claim C1 -/

/-- C1, counterexample.  The claim says a Select containing a descendant of a
dangerous statement kind is rejected "with a DangerousOperation error naming
that kind".  But the traversal checks anonymous function calls at each node
too, and the raised exception aborts the walk: in `mixedDangerTree` (root
Select, a dangerous anonymous `delete()` call preceding an Insert node in
pre-order) the rejection is a DangerousFunctionCall error, not a
DangerousOperation error, even though a dangerous Insert descendant is
present. -/
theorem c1_nested_danger_cex :
    mixedDangerTree.kind = NodeKind.select ∧
    hasDangerousNode mixedDangerTree = true ∧
    validate mixedDangerValidator
        ("SELECT delete(1) FROM (INSERT INTO t VALUES (1))".toList) =
      .error (.dangerousFunctionCall ("DELETE".toList)) :=
  ⟨rfl, by decide, by decide⟩

/-- C1 (amended): for a query the parser maps to a tree `t` whose root is a
Select: if `t` has no dangerous-kind node and no dangerous anonymous call,
`validate` accepts; if `t` has a dangerous-kind node anywhere (CTE bodies,
subqueries, nested expressions), `validate` rejects — with a
DangerousOperation error naming the kind of a dangerous node of `t`, or
(when a dangerous anonymous call is met first in pre-order) with a
DangerousFunctionCall error naming that call. -/
theorem c1_nested_danger_amended (v : Validator) (q : List Char) (t : SqlAst)
    (hne : (q.isEmpty || (trimL q).isEmpty) = false)
    (ha : v.sqlglotAvailable = true)
    (hp : v.parse (trimL q) = .ok t)
    (hs : t.kind = NodeKind.select) :
    (hasDangerousNode t = false ∧ hasDangerousCall v.dangerousKeywords t = false →
      validate v q = .ok ()) ∧
    (hasDangerousNode t = true →
      (∃ k, isDangerousType k = true ∧ containsKind t k = true ∧
        validate v q = .error (.dangerousOperation (kindName k))) ∨
      (∃ nm, containsKind t (.anonymous nm) = true ∧
        v.dangerousKeywords.contains (upperL nm) = true ∧
        validate v q = .error (.dangerousFunctionCall (upperL nm)))) := by
  have hval : validate v q = checkAst v.dangerousKeywords t := by
    unfold validate
    rw [if_neg (by simp [hne])]
    dsimp only
    rw [ha, if_pos rfl]
    unfold validateWithSqlglot
    rw [hp]
    dsimp only
    rw [if_pos (by simp [hs])]
  constructor
  · intro h
    rw [hval]
    exact (checkAst_ok_iff _ t).mpr h
  · intro hd
    cases he : checkAst v.dangerousKeywords t with
    | ok u =>
      exfalso
      cases u
      have h2 := (checkAst_ok_iff _ t).mp he
      rw [hd] at h2
      exact absurd h2.1 (by simp)
    | error e =>
      rcases checkAst_error_shape _ t e he with
        ⟨k2, ha1, ha2, rfl⟩ | ⟨nm, hb1, hb2, rfl⟩
      · exact Or.inl ⟨k2, ha1, ha2, by rw [hval, he]⟩
      · exact Or.inr ⟨nm, hb1, hb2, by rw [hval, he]⟩

/-- Witness for C1: a clean Select tree is accepted. -/
theorem c1_nested_danger_witness :
    validate cleanSelectValidator ("SELECT id FROM users".toList) = .ok () :=
  (c1_nested_danger_amended cleanSelectValidator _ cleanSelectTree
    (by decide) rfl rfl rfl).1 ⟨by decide, by decide⟩

/-! ## Claim C2 -/

/-- C2, counterexample.  The claim says any query with a semicolon followed
by more non-whitespace content is rejected as MultiStatement.  The compiled
pattern is `;\s*\w`, which requires a word character: `SELECT 1;(` has a
semicolon followed by the non-whitespace `(`, yet the fallback path accepts
it. -/
theorem c2_multi_statement_cex :
    specSemiThenContent ("SELECT 1;(".toList) = true ∧
    validate lexValidator ("SELECT 1;(".toList) = .ok () :=
  ⟨by decide, by decide⟩

/-- C2 (amended): the multi-statement check lives only in the regex path
(it is not applied when the AST parse succeeds), and it matches a semicolon
followed, after optional whitespace, by a word character in the
comment-stripped text: when that pattern occurs the regex path rejects with
MultiStatement; when it does not (a trailing-only semicolon in particular),
the regex path never returns MultiStatement; and a query validated through a
successful AST parse is never rejected as MultiStatement. -/
theorem c2_multi_statement_amended :
    (∀ (kws : List (List Char)) (q : List Char),
      hasMultiStatement (removeSqlComments q) = true →
      validateWithRegex kws q = .error .multiStatement) ∧
    (∀ (kws : List (List Char)) (q : List Char),
      hasMultiStatement (removeSqlComments q) = false →
      validateWithRegex kws q ≠ .error .multiStatement) ∧
    (∀ (v : Validator) (q : List Char) (t : SqlAst),
      v.sqlglotAvailable = true → v.parse (trimL q) = .ok t →
      validate v q ≠ .error .multiStatement) :=
  ⟨validateWithRegex_multi, validateWithRegex_not_multi, validate_ast_ne_multi⟩

/-- Witness for C2: statement chaining is rejected by the regex path. -/
theorem c2_multi_statement_witness :
    validateWithRegex DangerousOperation.values
      ("SELECT * FROM users; DROP TABLE users;".toList) =
      .error .multiStatement :=
  c2_multi_statement_amended.1 DangerousOperation.values _ (by decide)

/-! ## Claim C3 -/

/-- C3, counterexample.  GRANT is in the `DangerousOperation` enumeration but
absent from `AnalyticsService.DANGEROUS_KEYWORDS`, so `validate_query`
accepts an entire GRANT statement that the lexical path rejects. -/
theorem c3_keyword_taxonomy_cex :
    ("GRANT".toList) ∈ DangerousOperation.values ∧
    ("GRANT".toList) ∉ Analytics.DANGEROUS_KEYWORDS ∧
    Analytics.validateQuery ("GRANT SELECT ON users TO admin".toList) =
      .ok () ∧
    validate lexValidator ("GRANT SELECT ON users TO admin".toList) =
      .error (.dangerousKeyword ("GRANT".toList)) :=
  ⟨by decide, by decide, by decide, by decide⟩

/-- C3 (amended): the lexical path's keyword set is exactly the
`DangerousOperation` enumeration (built from it at construction), and a
query whose comment-stripped text contains an enumeration keyword as a whole
word is rejected by the lexical keyword scan (unless the multi-statement
check fires first); the `AnalyticsService` blacklist, however, is a
hand-duplicated proper subset of the enumeration (18 of the 30 keywords;
MERGE, RENAME, GRANT, REVOKE, COMMIT, ROLLBACK, SAVEPOINT, SET, CHECKPOINT,
VACUUM, ANALYZE and IMPORT are missing), not a consumer of a single shared
source of truth. -/
theorem c3_keyword_taxonomy_amended :
    ((Validator.make ("duckdb".toList) true false
        (fun _ => .error [])).dangerousKeywords = DangerousOperation.values) ∧
    (∀ kw ∈ Analytics.DANGEROUS_KEYWORDS, kw ∈ DangerousOperation.values) ∧
    (∃ kw, kw ∈ DangerousOperation.values ∧
      kw ∉ Analytics.DANGEROUS_KEYWORDS) ∧
    (∀ (q w : List Char),
      hasMultiStatement (removeSqlComments q) = false →
      w ∈ wordsOf (removeSqlComments q) →
      DangerousOperation.values.contains (upperL w) = true →
      ∃ kw, validateWithRegex DangerousOperation.values q =
          .error (.dangerousKeyword kw) ∧ kw ∈ DangerousOperation.values) := by
  refine ⟨rfl, by decide, ⟨"MERGE".toList, by decide, by decide⟩, ?_⟩
  intro q w hm hw hc
  exact validateWithRegex_keyword _ q w hm hw hc

/-- Witness for C3: a MERGE query is caught by the lexical keyword scan. -/
theorem c3_keyword_taxonomy_witness :
    ∃ kw, validateWithRegex DangerousOperation.values
        ("MERGE INTO users".toList) = .error (.dangerousKeyword kw) ∧
      kw ∈ DangerousOperation.values :=
  c3_keyword_taxonomy_amended.2.2.2 ("MERGE INTO users".toList)
    ("MERGE".toList) (by decide) (by decide) (by decide)

/-! ## Claim C4 -/

/-- C4, counterexample.  The claim says every syntactically pure SELECT whose
FROM target is outside the allow-list is rejected with ForbiddenTable.  The
extraction regex only captures an unquoted identifier directly after
FROM/JOIN whitespace, so `SELECT * FROM \x22evil\x22` — a pure SELECT on the
forbidden table `evil`, merely quoted — is accepted outright. -/
theorem c4_allowlist_cex :
    ("evil".toList) ∉ Analytics.ALLOWED_TABLES ∧
    Analytics.validateQuery (("SELECT * FROM " ++ "\"evil\"").toList) =
      .ok () :=
  ⟨by decide, by decide⟩

/-- C4 (amended): for every query that passes the keyword, comment and
semicolon checks, if the FROM/JOIN extraction regex captures a name whose
lowercase form is not in the allow-list, `validate_query` rejects with a
ForbiddenTable error carrying the first such (uppercased) name and the
allow-list; tables hidden from the regex (quoting, unusual positions) are
not caught. -/
theorem c4_allowlist_amended (q t : List Char)
    (h1 : Analytics.keywordHit q = none)
    (h2 : Analytics.hasCommentMarks q = false)
    (h3 : Analytics.multiStatementCond q = false)
    (h4 : Analytics.firstForbiddenTable q = some t) :
    Analytics.validateQuery q =
        .error (.forbiddenTable t Analytics.ALLOWED_TABLES) ∧
      Analytics.ALLOWED_TABLES.contains (lowerL t) = false :=
  validateQuery_table q t h1 h2 h3 h4

/-- Witness for C4: an unquoted forbidden table is rejected with
ForbiddenTable carrying the name and the allow-list. -/
theorem c4_allowlist_witness :
    Analytics.validateQuery ("SELECT * FROM secrets".toList) =
        .error (.forbiddenTable ("SECRETS".toList) Analytics.ALLOWED_TABLES) ∧
      Analytics.ALLOWED_TABLES.contains (lowerL ("SECRETS".toList)) = false :=
  c4_allowlist_amended _ _ (by decide) (by decide) (by decide) (by decide)

/-! ## Claim C5 -/

/-- C5, counterexample.  The claim says `SELECT * FROM users -- DELETE FROM
users` is rejected by the allow-list guard with category ForbiddenComment.
In the code the keyword scan runs before the comment check and does not
strip comments, so the query is rejected with the forbidden-keyword category
(naming DELETE) instead. -/
theorem c5_comment_cex :
    Analytics.validateQuery
        ("SELECT * FROM users -- DELETE FROM users".toList) =
      .error (.forbiddenKeyword ("DELETE".toList)) ∧
    Analytics.validateQuery
        ("SELECT * FROM users -- DELETE FROM users".toList) ≠
      .error .forbiddenComment :=
  ⟨by decide, by decide⟩

/-- C5 (amended): in the lexical path comments are stripped before any
check, so a dangerous keyword appearing only inside a comment never triggers
rejection — `SELECT * FROM users -- DELETE FROM users` is accepted, and the
lexical outcome depends only on the comment-stripped text; under the
allow-list guard the same string is rejected, but with the forbidden-keyword
category naming DELETE (the keyword scan precedes the comment check and sees
inside comments); a query containing comment syntax and no blacklisted
keyword is rejected with ForbiddenComment. -/
theorem c5_comment_amended :
    (validateWithRegex DangerousOperation.values
      ("SELECT * FROM users -- DELETE FROM users".toList) = .ok ()) ∧
    (∀ (kws : List (List Char)) (q q2 : List Char),
      removeSqlComments q = removeSqlComments q2 →
      validateWithRegex kws q = validateWithRegex kws q2) ∧
    (∀ q : List Char, Analytics.keywordHit q = none →
      containsSub ("--".toList) q = true →
      Analytics.validateQuery q = .error .forbiddenComment) := by
  refine ⟨by decide, validateWithRegex_comment_invariant, ?_⟩
  intro q hk hc
  have hcs : Analytics.hasCommentMarks q = true := by
    unfold Analytics.hasCommentMarks
    rw [hc]
    simp
  simp [Analytics.validateQuery, hk, hcs]

/-- Witness for C5: comment syntax without blacklisted keywords is rejected
with ForbiddenComment. -/
theorem c5_comment_witness :
    Analytics.validateQuery ("SELECT * FROM users -- tracking note".toList) =
      .error .forbiddenComment :=
  c5_comment_amended.2.2 _ (by decide) (by decide)

/-! ## Claim C6 -/

/-- C6, counterexample.  The claim says the returned string ends with a
LIMIT clause whenever the caller wrote none.  The presence test is the
substring `'LIMIT' in query.upper()`, so for the accepted query
`SELECT limit_val FROM users` — which contains the substring LIMIT only
inside the identifier `limit_val` — nothing is appended and the result
contains no LIMIT keyword at all (its words, uppercased, do not include
LIMIT), hence does not end with a LIMIT clause. -/
theorem c6_prepare_cex :
    Analytics.validateQuery ("SELECT limit_val FROM users".toList) = .ok () ∧
    Analytics.prepareForExecution ("SELECT limit_val FROM users".toList) 100 =
      ("SELECT limit_val FROM users".toList) ∧
    (wordsOf (upperL (Analytics.prepareForExecution
        ("SELECT limit_val FROM users".toList) 100))).contains
      ("LIMIT".toList) = false :=
  ⟨by decide, by decide, by decide⟩

/-- C6 (amended): for every accepted query, the preparation step strips
outer whitespace and one trailing semicolon, and appends `LIMIT <n>` exactly
when the uppercased remaining text does not contain the substring `LIMIT`
(so an explicit LIMIT is never overridden, but an identifier containing
`limit` also suppresses the backstop); the result never contains a
semicolon, in particular no trailing one. -/
theorem c6_prepare_amended (q : List Char) (n : Nat)
    (hok : Analytics.validateQuery q = .ok ()) :
    (containsSub ("LIMIT".toList) (upperL (Analytics.stripTrailingSemi q)) =
        false →
      Analytics.prepareForExecution q n =
        Analytics.stripTrailingSemi q ++
          (" LIMIT ".toList ++ natToChars n)) ∧
    (containsSub ("LIMIT".toList) (upperL (Analytics.stripTrailingSemi q)) =
        true →
      Analytics.prepareForExecution q n = Analytics.stripTrailingSemi q) ∧
    ';' ∉ Analytics.prepareForExecution q n := by
  refine ⟨?_, ?_, ?_⟩
  · intro hnc
    unfold Analytics.prepareForExecution
    dsimp only
    rw [if_neg (by rw [hnc]; simp)]
  · intro hcc
    unfold Analytics.prepareForExecution
    dsimp only
    rw [if_pos hcc]
  · exact prepare_semi_free q n (validateQuery_ok_parts q hok).2.2.1

/-- Witness for C6: a trailing semicolon is stripped and the LIMIT backstop
appended. -/
theorem c6_prepare_witness :
    Analytics.prepareForExecution ("SELECT * FROM users;".toList) 50 =
      Analytics.stripTrailingSemi ("SELECT * FROM users;".toList) ++
        (" LIMIT ".toList ++ natToChars 50) :=
  (c6_prepare_amended ("SELECT * FROM users;".toList) 50 (by decide)).1
    (by decide)

/-! ## Claim C7 -/

/-- C7: for a nonempty query that fails to parse under the configured
dialect, `validate` rejects with a parse-error carrying the parser's
diagnostic when `strict_mode` is on, and otherwise returns exactly the
outcome of the regex path on the same (stripped) input. -/
theorem c7_strict_mode (v : Validator) (q d : List Char)
    (hne : (q.isEmpty || (trimL q).isEmpty) = false)
    (ha : v.sqlglotAvailable = true)
    (hp : v.parse (trimL q) = .error d) :
    (v.strictMode = true → validate v q = .error (.parseError d)) ∧
    (v.strictMode = false →
      validate v q = validateWithRegex v.dangerousKeywords (trimL q)) := by
  have hbase : validate v q = validateWithSqlglot v (trimL q) := by
    unfold validate
    rw [if_neg (by simp [hne])]
    dsimp only
    rw [ha, if_pos rfl]
  constructor
  · intro hs
    rw [hbase]
    unfold validateWithSqlglot
    rw [hp]
    dsimp only
    rw [hs, if_pos rfl]
  · intro hs
    rw [hbase]
    unfold validateWithSqlglot
    rw [hp]
    dsimp only
    rw [hs]
    simp

/-- Witness for C7: both strict-mode behaviors at a concrete failing parse. -/
theorem c7_strict_mode_witness :
    validate (parseFailValidator true) ("SELEC 1".toList) =
        .error (.parseError ("Invalid expression".toList)) ∧
      validate (parseFailValidator false) ("SELEC 1".toList) =
        validateWithRegex (parseFailValidator false).dangerousKeywords
          (trimL ("SELEC 1".toList)) :=
  ⟨(c7_strict_mode (parseFailValidator true) _ _ (by decide) rfl rfl).1 rfl,
   (c7_strict_mode (parseFailValidator false) _ _ (by decide) rfl rfl).2 rfl⟩

/-! ## Claim C8 -/

/-- C8: a validation rejection propagates before any call to the engine:
in `AnalyticsService.execute_query` and in
`SafeDuckDBExecutor.execute_safe_query`, a rejected query produces the
validation error and an empty engine-call trace — the engine is never
invoked. -/
theorem c8_rejection_atomicity :
    (∀ (R : Type) (db : List Char → Except (List Char) R)
      (req : Analytics.SQLQueryRequest) (e : Analytics.AErr),
      Analytics.validateQuery req.query = .error e →
      Analytics.executeQuery db req = (.error e, [])) ∧
    (∀ (R : Type) (v : Validator) (db : List Char → Except (List Char) R)
      (q : List Char) (e : VErr),
      validate v q = .error e →
      executeSafeQuery v db q = (.validationError e, [])) := by
  constructor
  · intro R db req e h
    unfold Analytics.executeQuery
    rw [h]
  · intro R v db q e h
    unfold executeSafeQuery
    rw [h]

/-- Witness for C8: two rejected queries, both with empty engine traces. -/
theorem c8_rejection_atomicity_witness :
    Analytics.executeQuery (fun _ => Except.ok ())
        ⟨("DROP TABLE users".toList), 10⟩ =
        (.error (.forbiddenKeyword ("DROP".toList)), []) ∧
      executeSafeQuery lexValidator (fun _ => Except.ok ())
        ("DELETE FROM users".toList) =
        (.validationError (.dangerousKeyword ("DELETE".toList)), []) :=
  ⟨c8_rejection_atomicity.1 Unit _ _ _ (by decide),
   c8_rejection_atomicity.2 Unit lexValidator _ _ _ (by decide)⟩

/-! ## Claim C9 -/

/-- C9: rendering every method with the instance threaded through
explicitly, `validate` returns the validator configuration unchanged (no
assignment to it anywhere in its call graph), two successive calls on the
same query produce the same outcome — decision and message — and the
threaded outcome is the pure one. -/
theorem c9_stateless_idempotent (v : Validator) (q : List Char) :
    (validateS v q).2 = v ∧
    (validateS ((validateS v q).2) q).1 = (validateS v q).1 ∧
    (validateS v q).1 = validate v q := by
  simp [validateS_eq]

/-! ## Claim C10 -/

/-- C10: `validate_and_explain` returns `(True, None)` exactly when
`validate` accepts, and `(False, m)` with precisely the caught
`QueryValidationError` `m` when `validate` rejects; no error escapes and no
rejected query is reported as valid. -/
theorem c10_validate_and_explain (v : Validator) (q : List Char) :
    (validateAndExplain v q = (true, none) ↔ validate v q = .ok ()) ∧
    (∀ e, validate v q = .error e →
      validateAndExplain v q = (false, some e)) := by
  cases h : validate v q with
  | ok u =>
    cases u
    refine ⟨by simp [validateAndExplain, h], ?_⟩
    intro e he
    simp at he
  | error e2 =>
    refine ⟨⟨?_, ?_⟩, ?_⟩
    · intro hh
      simp [validateAndExplain, h] at hh
    · intro hh
      simp at hh
    · intro e he
      cases he
      simp [validateAndExplain, h]

/-- Witness for C10: a rejected query is reported as invalid with the
rejection's message. -/
theorem c10_validate_and_explain_witness :
    validateAndExplain lexValidator ("UPDATE users".toList) =
      (false, some (.dangerousKeyword ("UPDATE".toList))) :=
  (c10_validate_and_explain lexValidator ("UPDATE users".toList)).2 _
    (by decide)
